import Mathlib

/-!
Shallow embedding of `src/src/merkle_tree.ts` (class `MerkleTree`).

Modelling conventions:
* A JS `Buffer` is a list of byte values (`Bytes`).
* The `Sha256Hasher` collaborator is modelled as the free algebra generated by
  `hash` and `compress`; two digests are equal exactly when they were built by
  the same sequence of primitive calls.  The extra constructor `jsUndefined` models
  the JS value `undefined`, which a `Buffer`-typed slot can hold at runtime
  (e.g. `map.get(k)!` on an absent key).
* A JS `Map<number, Buffer>` is an insertion-ordered association list with
  unique keys (`JMap`); `set` on an existing key updates the value in place,
  otherwise appends, matching JS `Map` iteration semantics.
* The LevelUp database and the tree name are external collaborators and are
  not part of the state; `persistTree` is modelled as producing the blob that
  `JSON.stringify`/`JSON.parse` round-trips (JSON objects iterate integer-like
  keys in ascending numeric order, hence the per-level key sort on persist).
-/

/-- A byte string (JS `Buffer`), modelled as a list of byte values. -/
abbrev Bytes := List Nat

/-- `LEAF_BYTES = 64`: `Buffer.alloc(64)`, the all-zero 64-byte leaf value. -/
def zero64 : Bytes := List.replicate 64 0

/-- Digests produced by the hasher, as a free term algebra; `jsUndefined` models the
JS value `undefined`. -/
inductive Digest where
  | jsUndefined : Digest
  | hash : Bytes → Digest
  | compress : Digest → Digest → Digest
deriving DecidableEq

/-- A JS `Map` with `number` keys: insertion-ordered association list. -/
abbrev JMap (α : Type) := List (Nat × α)

/-- `Map.prototype.get`. -/
def mapGet {α : Type} (m : JMap α) (k : Nat) : Option α :=
  (m.find? (fun e => e.1 == k)).map Prod.snd

/-- `Map.prototype.has`. -/
def mapHas {α : Type} (m : JMap α) (k : Nat) : Bool :=
  (m.find? (fun e => e.1 == k)).isSome

/-- `Map.prototype.set`: update in place when the key exists, else append. -/
def mapSet {α : Type} (m : JMap α) (k : Nat) (v : α) : JMap α :=
  if mapHas m k then m.map (fun e => if e.1 == k then (k, v) else e)
  else m ++ [(k, v)]

/-- `generateZeroHashesByLevel`: `Z[0] = hash(zero64)`,
`Z[i] = compress(Z[i-1], Z[i-1])` (the loop body of lines 63-69). -/
def zeroHash : Nat → Digest
  | 0 => .hash zero64
  | i + 1 => .compress (zeroHash i) (zeroHash i)

/-- In-memory state of a `MerkleTree` instance (`db` and `name` are external
collaborators and carry no tree state). -/
structure MerkleTree where
  depth : Nat
  dataBlocks : JMap Bytes
  hashes : List (JMap Digest)
  zeroHashesByLevel : List Digest
  root : Digest
deriving DecidableEq

/-- `index % 2 === 0 ? index + 1 : index - 1` (lines 99 and 181). -/
def indexOfSibling (index : Nat) : Nat :=
  if index % 2 == 0 then index + 1 else index - 1

/-- `indexOfParentNode` (lines 76-82); for odd `n`, JS `Math.round(n/2)` is
`(n+1)/2`. -/
def indexOfParentNode (index : Nat) : Nat :=
  if index % 2 == 0 then index / 2 else (index + 1) / 2 - 1

/-- Level 0 of `generateTreeNodes` (lines 88-91): hash every data block. -/
def leafHashes (dataBlocks : JMap Bytes) : JMap Digest :=
  dataBlocks.foldl (fun m e => mapSet m e.1 (.hash e.2)) []

/-- One iteration of the inner loop of `generateTreeNodes` (lines 98-106);
the accumulator is the level being built plus the `processed` key set. -/
def levelStep (prev : JMap Digest) (zprev : Digest)
    (acc : JMap Digest × List Nat) (e : Nat × Digest) : JMap Digest × List Nat :=
  (if acc.2.contains (indexOfSibling e.1) && acc.2.contains e.1 then acc.1
   else
     mapSet acc.1 (indexOfParentNode e.1)
       (.compress e.2 ((mapGet prev (indexOfSibling e.1)).getD zprev)),
   indexOfSibling e.1 :: e.1 :: acc.2)

/-- One level of `generateTreeNodes` (lines 95-106): fold the previous level's
entries in iteration order. -/
def buildLevel (prev : JMap Digest) (zprev : Digest) : JMap Digest :=
  (prev.foldl (levelStep prev zprev) ([], [])).1

/-- Levels `lvl+1 .. lvl+n` built above `prev` (the outer loop of lines
94-107); `zlevels` is `this.zeroHashesByLevel`. -/
def levelsAbove (zlevels : List Digest) (prev : JMap Digest) (lvl : Nat) :
    Nat → List (JMap Digest)
  | 0 => []
  | n + 1 =>
    buildLevel prev (zlevels.getD lvl .jsUndefined) ::
      levelsAbove zlevels (buildLevel prev (zlevels.getD lvl .jsUndefined)) (lvl + 1) n

/-- All `depth+1` levels rebuilt by `generateTreeNodes`. -/
def generateLevels (zlevels : List Digest) (db : JMap Bytes) (depth : Nat) :
    List (JMap Digest) :=
  leafHashes db :: levelsAbove zlevels (leafHashes db) 0 depth

/-- Line 108: root from the freshly built top level; `get(0)!` on an absent
key is JS `undefined`. -/
def rootOfLevels (levels : List (JMap Digest)) (zTop : Digest) : Digest :=
  if (levels.getLast?.getD []).isEmpty then zTop
  else (mapGet (levels.getLast?.getD []) 0).getD .jsUndefined

/-- `generateTreeNodes` (lines 87-109). -/
def generateTreeNodes (t : MerkleTree) : MerkleTree :=
  { t with
    hashes := generateLevels t.zeroHashesByLevel t.dataBlocks t.depth,
    root := rootOfLevels (generateLevels t.zeroHashesByLevel t.dataBlocks t.depth)
      (t.zeroHashesByLevel.getLast?.getD .jsUndefined) }

/-- State after field initialization plus `generateZeroHashesByLevel`
(constructor lines 49-52): the table has `depth+1` entries and the root is its
last entry. -/
def initTree (d : Nat) : MerkleTree :=
  { depth := d,
    dataBlocks := [],
    hashes := [],
    zeroHashesByLevel := (List.range (d + 1)).map zeroHash,
    root := zeroHash d }

/-- A freshly constructed empty tree (constructor, `data` absent). -/
def fresh (d : Nat) : MerkleTree :=
  generateTreeNodes (initTree d)

/-- A persisted blob after `JSON.parse`: one entry per top-level key `0..n-1`
(in ascending numeric order, as JS object iteration yields them), each an
index-to-digest map. -/
abbrev Blob := List (JMap Digest)

/-- `restorePersistedTree` (lines 147-163): `depth` is recounted from the
top-level keys of the blob, the node maps are rebuilt from it, and the root is
`hashes[hashes.length-1].get(0)!` (JS `undefined` when absent).  The
`data === ""` and empty-object corner cases (JS falsy / crash) are outside
every claim and are not modelled. -/
def restorePersistedTree (t : MerkleTree) (blob : Blob) : MerkleTree :=
  { t with
    depth := blob.length - 1,
    hashes := blob,
    root := (mapGet (blob.getLast?.getD []) 0).getD .jsUndefined }

/-- The constructor (lines 45-58): depth validation, zero-hash table, then
either restore or a fresh rebuild. -/
def mkTree (depth : Int) (data : Option Blob) : Except String MerkleTree :=
  if 1 ≤ depth ∧ depth ≤ 32 then
    match data with
    | some blob => .ok (restorePersistedTree (initTree depth.toNat) blob)
    | none => .ok (generateTreeNodes (initTree depth.toNat))
  else .error "Bad depth"

/-- Sorted insertion by key, used to model JSON object key ordering. -/
def insertByKey (e : Nat × Digest) : JMap Digest → JMap Digest
  | [] => [e]
  | x :: xs => if e.1 < x.1 then e :: x :: xs else x :: insertByKey e xs

/-- Sort a level's entries by key: `JSON.parse(JSON.stringify(level))`
iterates integer-like keys in ascending numeric order. -/
def sortByKey (m : JMap Digest) : JMap Digest :=
  m.foldr insertByKey []

/-- `persistTree` (lines 130-141) composed with `JSON.parse` on restore: every
level `0..hashes.length-1` is emitted (empty levels included), digests
round-trip unchanged through `toJSON`/`Buffer.from`, and each level's keys
come back in ascending order. -/
def persistTree (t : MerkleTree) : Blob :=
  t.hashes.map sortByKey

/-- Resolution of one node inside `getHashPath` (lines 182-191): the level's
cache entry when present, else the zero-hash table entry for that level. -/
def resolveNode (t : MerkleTree) (i : Nat) (j : Nat) : Digest :=
  if mapHas (t.hashes.getD i []) j then (mapGet (t.hashes.getD i []) j).getD .jsUndefined
  else t.zeroHashesByLevel.getD i .jsUndefined

/-- The loop of `getHashPath` (lines 179-194), from level `i`, running `fuel`
more iterations, with current walked index `index`; the pair puts the digest
of the lower-index node of the sibling pair first. -/
def getHashPathFrom (t : MerkleTree) : Nat → Nat → Nat → List (Digest × Digest)
  | _, 0, _ => []
  | i, fuel + 1, index =>
    (if index < indexOfSibling index then
      (resolveNode t i index, resolveNode t i (indexOfSibling index))
    else
      (resolveNode t i (indexOfSibling index), resolveNode t i index)) ::
      getHashPathFrom t (i + 1) fuel (indexOfParentNode index)

/-- `getHashPath` (lines 177-196). -/
def getHashPath (t : MerkleTree) (index : Nat) : List (Digest × Digest) :=
  getHashPathFrom t 0 t.depth index

/-- `updateElement` (lines 201-206): set the data block, rebuild all nodes
(the write to the database changes no in-memory state; the JS return value is
the new root, read off via `getRoot`). -/
def updateElement (t : MerkleTree) (index : Nat) (value : Bytes) : MerkleTree :=
  generateTreeNodes { t with dataBlocks := mapSet t.dataBlocks index value }

/-- `getRoot` (lines 165-167). -/
def getRoot (t : MerkleTree) : Digest :=
  t.root

/-- Apply a sequence of `updateElement` calls in order. -/
def applyUpdates (t : MerkleTree) : List (Nat × Bytes) → MerkleTree
  | [] => t
  | u :: rest => applyUpdates (updateElement t u.1 u.2) rest

/-- Every state reachable from a fresh depth-`d` tree by `updateElement`. -/
def reachable (d : Nat) (ups : List (Nat × Bytes)) : MerkleTree :=
  applyUpdates (fresh d) ups

/-- A sample 64-byte leaf value (64 bytes of 0x01). -/
def v1 : Bytes := List.replicate 64 1

/-- A second sample 64-byte leaf value (64 bytes of 0x02). -/
def v2 : Bytes := List.replicate 64 2

/-- Modelled from the claim (C1): the node at position `p` of level `l` of the
dense reference tree of the stated shape — `hash v` at leaf `index`,
`hash zero64` at every other leaf, each parent `compress(left, right)` with
the lower-index child on the left. -/
def denseLevel (index : Nat) (v : Bytes) : Nat → Nat → Digest
  | 0, p => if p = index then .hash v else .hash zero64
  | l + 1, p => .compress (denseLevel index v l (2 * p)) (denseLevel index v l (2 * p + 1))

/-- Modelled from the claim (C1): the dense reference root of depth `d`. -/
def denseRoot (d : Nat) (index : Nat) (v : Bytes) : Digest :=
  denseLevel index v d 0

/-- Modelled from the claim (C3): fold a hash path bottom-up with `compress`,
the running digest taking the side of each pair given by the parity of the
walked index. -/
def foldPath (seed : Digest) (index : Nat) : List (Digest × Digest) → Digest
  | [] => seed
  | p :: rest =>
    foldPath (if index % 2 == 0 then .compress seed p.2 else .compress p.1 seed)
      (index / 2) rest

/-- Modelled from the claim (C10): resolve a node from the level-`k` cache,
falling back to the zero-hash table entry `Z[k]` when absent. -/
def cacheOrZero (t : MerkleTree) (k : Nat) (j : Nat) : Digest :=
  match mapGet (t.hashes.getD k []) j with
  | some h => h
  | none => zeroHash k

/-- Level `k` of the rebuilt cache as a standalone recurrence (used to reason
about `generateLevels` level by level). -/
def levelOf (zlevels : List Digest) (db : JMap Bytes) : Nat → JMap Digest
  | 0 => leafHashes db
  | k + 1 => buildLevel (levelOf zlevels db k) (zlevels.getD k .jsUndefined)

/-- C1: the claim says that after `updateElement(index, v)` on a fresh tree the
root equals the dense reference root with the lower-index child always on the
left of `compress`.  At depth 1, index 1, the code computes
`compress(hash v, Z[0])` — the freshly hashed (odd, higher-index) child first —
while the reference root is `compress(Z[0], hash v)`, so the two differ:
line 102 passes the iterated node's digest as the first argument of `compress`
regardless of which sibling has the lower index. -/
theorem c1_update_vs_dense_bug :
    getRoot (updateElement (fresh 1) 1 v1) = .compress (.hash v1) (zeroHash 0) ∧
    denseRoot 1 1 v1 = .compress (zeroHash 0) (.hash v1) ∧
    getRoot (updateElement (fresh 1) 1 v1) ≠ denseRoot 1 1 v1 := by
  decide

/-- C2: the claim says the final root is independent of the order in which a
fixed set of (index, value) assignments is applied.  With assignments
(0, v1) and (1, v2) at depth 1, applying them in the two possible orders
yields `compress(hash v1, hash v2)` and `compress(hash v2, hash v1)`
respectively: the insertion order of the data-block map fixes the iteration
order at line 98, and line 102 puts the first-iterated sibling first. -/
theorem c2_order_dependence_bug :
    getRoot (reachable 1 [(0, v1), (1, v2)]) = .compress (.hash v1) (.hash v2) ∧
    getRoot (reachable 1 [(1, v2), (0, v1)]) = .compress (.hash v2) (.hash v1) ∧
    getRoot (reachable 1 [(0, v1), (1, v2)]) ≠
      getRoot (reachable 1 [(1, v2), (0, v1)]) := by
  decide

/-- C3: the claim says folding `getHashPath(index)` with `compress`, seeded
with the hash of the stored value on the side given by the parity of the
index, reproduces `getRoot()`.  After `updateElement(1, v1)` at depth 1 the
path is `[(Z[0], hash v1)]` (getHashPath orders pairs lower-index-left), so
the fold yields `compress(Z[0], hash v1)`, but the stored root is
`compress(hash v1, Z[0])` — the rebuild at line 102 used the opposite order. -/
theorem c3_hash_path_unsound_bug :
    getHashPath (updateElement (fresh 1) 1 v1) 1 = [(zeroHash 0, .hash v1)] ∧
    foldPath (.hash v1) 1 (getHashPath (updateElement (fresh 1) 1 v1) 1) =
      .compress (zeroHash 0) (.hash v1) ∧
    getRoot (updateElement (fresh 1) 1 v1) = .compress (.hash v1) (zeroHash 0) ∧
    foldPath (.hash v1) 1 (getHashPath (updateElement (fresh 1) 1 v1) 1) ≠
      getRoot (updateElement (fresh 1) 1 v1) := by
  decide

/-- C4: the claim says every cached parent digest equals
`compress(child 2p, child 2p+1)` with the children's digests passed in index
order (each resolved from the level below or its zero hash).  After
`updateElement(1, v1)` at depth 1, the cache holds
`NodeCache[1][0] = compress(hash v1, Z[0])`, i.e. child 1's digest first,
whereas the claimed ordered form is `compress(Z[0], hash v1)`. -/
theorem c4_parent_order_bug :
    mapGet ((updateElement (fresh 1) 1 v1).hashes.getD 1 []) 0 =
      some (.compress (.hash v1) (zeroHash 0)) ∧
    Digest.compress (cacheOrZero (updateElement (fresh 1) 1 v1) 0 0)
        (cacheOrZero (updateElement (fresh 1) 1 v1) 0 1) =
      .compress (zeroHash 0) (.hash v1) ∧
    mapGet ((updateElement (fresh 1) 1 v1).hashes.getD 1 []) 0 ≠
      some (Digest.compress (cacheOrZero (updateElement (fresh 1) 1 v1) 0 0)
        (cacheOrZero (updateElement (fresh 1) 1 v1) 0 1)) := by
  decide

/-- C5: the claim says persist-then-restore preserves `getRoot()` bit-for-bit,
including for the empty, never-updated tree.  A fresh depth-1 tree has root
`Z[1]`, but its persisted blob holds only empty levels, and
`restorePersistedTree` (line 161) reads the root as `top.get(0)!` with no
empty-level fallback, so the restored root is JS `undefined`. -/
theorem c5_restore_empty_root_bug :
    getRoot (fresh 1) = zeroHash 1 ∧
    (mkTree 1 (some (persistTree (fresh 1)))).toOption.map getRoot =
      some Digest.jsUndefined ∧
    (mkTree 1 (some (persistTree (fresh 1)))).toOption.map getRoot ≠
      some (getRoot (fresh 1)) := by
  decide

theorem buildLevel_nil (z : Digest) : buildLevel [] z = [] := rfl

theorem levelsAbove_nil (zl : List Digest) (n : Nat) :
    ∀ lvl, levelsAbove zl [] lvl n = List.replicate n [] := by
  induction n with
  | zero => intro lvl; rfl
  | succ n ih =>
    intro lvl
    simp [levelsAbove, buildLevel_nil, ih, List.replicate_succ]

theorem generateLevels_nil (zl : List Digest) (d : Nat) :
    generateLevels zl [] d = List.replicate (d + 1) [] := by
  simp [generateLevels, leafHashes, levelsAbove_nil, List.replicate_succ]

theorem getLast_replicate (n : Nat) (x : JMap Digest) :
    (List.replicate (n + 1) x).getLast? = some x := by
  rw [List.replicate_succ', List.getLast?_concat]

theorem zeroTable_getLast (d : Nat) :
    ((List.range (d + 1)).map zeroHash).getLast? = some (zeroHash d) := by
  rw [List.range_succ, List.map_append, List.map_singleton, List.getLast?_concat]

theorem fresh_root (d : Nat) : getRoot (fresh d) = zeroHash d := by
  simp only [getRoot, fresh, generateTreeNodes, initTree, rootOfLevels]
  rw [generateLevels_nil, getLast_replicate, zeroTable_getLast]
  simp

/-- C6: for every depth in [1,32], a freshly constructed tree with no
persisted data and no updates has `getRoot()` equal to `Z[depth]`, the last
entry of the zero-hash table built by `Z[0] = hash(zero64)`,
`Z[i] = compress(Z[i-1], Z[i-1])`. -/
theorem c6_empty_root (d : Int) (h1 : 1 ≤ d) (h2 : d ≤ 32) :
    (mkTree d none).toOption.map getRoot = some (zeroHash d.toNat) := by
  rw [mkTree, if_pos (And.intro h1 h2)]
  simpa [Except.toOption] using fresh_root d.toNat

/-- Witness for C6 at depth 3. -/
theorem c6_empty_root_witness :
    (mkTree 3 none).toOption.map getRoot = some (zeroHash 3) :=
  c6_empty_root 3 (by decide) (by decide)

/-- C8: a tree restored from a persisted blob has its depth recomputed as the
number of top-level keys of the blob minus one; the caller-supplied depth
argument is overwritten, so the persisted depth wins whenever they differ. -/
theorem c8_restored_depth (d : Int) (h1 : 1 ≤ d) (h2 : d ≤ 32)
    (blob : Blob) (_hb : blob ≠ []) :
    (mkTree d (some blob)).toOption.map MerkleTree.depth = some (blob.length - 1) := by
  rw [mkTree, if_pos (And.intro h1 h2)]
  simp [Except.toOption, restorePersistedTree]

/-- Witness for C8: caller asks for depth 5, the blob has two levels, and the
restored tree reports depth 1. -/
theorem c8_restored_depth_witness :
    (mkTree 5 (some [[], []])).toOption.map MerkleTree.depth = some 1 :=
  c8_restored_depth 5 (by decide) (by decide) [[], []] (by decide)

/-- C9: construction succeeds exactly when the depth argument lies in [1,32];
for every depth outside that range (including 0 and negatives) it fails with
the `Bad depth` error and no tree value is produced. -/
theorem c9_depth_validation (d : Int) (data : Option Blob) :
    ((∃ t, mkTree d data = .ok t) ↔ (1 ≤ d ∧ d ≤ 32)) ∧
    (mkTree d data = .error "Bad depth" ↔ (d < 1 ∨ 32 < d)) := by
  by_cases h : 1 ≤ d ∧ d ≤ 32
  · rw [mkTree.eq_def, if_pos h]
    cases data with
    | none =>
      refine ⟨⟨fun _ => h, fun _ => ⟨_, rfl⟩⟩, ?_⟩
      simp
      omega
    | some blob =>
      refine ⟨⟨fun _ => h, fun _ => ⟨_, rfl⟩⟩, ?_⟩
      simp
      omega
  · rw [mkTree.eq_def, if_neg h]
    refine ⟨⟨?_, fun hh => absurd hh h⟩, ⟨fun _ => by omega, fun _ => rfl⟩⟩
    rintro ⟨t, ht⟩
    simp at ht

theorem indexOfParentNode_eq (n : Nat) : indexOfParentNode n = n / 2 := by
  unfold indexOfParentNode
  split
  · rfl
  · rename_i h
    simp at h
    omega

theorem getHashPathFrom_length (t : MerkleTree) (fuel : Nat) :
    ∀ i index, (getHashPathFrom t i fuel index).length = fuel := by
  induction fuel with
  | zero => intro i index; rfl
  | succ n ih => intro i index; simp [getHashPathFrom, ih]

theorem getHashPathFrom_getElem (t : MerkleTree) (fuel : Nat) :
    ∀ k, k < fuel → ∀ i index,
      (getHashPathFrom t i fuel index)[k]? =
        some (resolveNode t (i + k) (2 * (index / 2 ^ k / 2)),
              resolveNode t (i + k) (2 * (index / 2 ^ k / 2) + 1)) := by
  induction fuel with
  | zero => intro k hk; omega
  | succ n ih =>
    intro k hk i index
    cases k with
    | zero =>
      simp only [getHashPathFrom, List.getElem?_cons_zero, Nat.add_zero,
        Nat.pow_zero, Nat.div_one]
      by_cases hp : index % 2 = 0
      · have h1 : indexOfSibling index = index + 1 := by
          simp [indexOfSibling, hp]
        have h2 : 2 * (index / 2) = index := by omega
        rw [h1, if_pos (Nat.lt_succ_self index), h2]
      · have h1 : indexOfSibling index = index - 1 := by
          simp [indexOfSibling, hp]
        have h2 : 2 * (index / 2) = index - 1 := by omega
        have h3 : 2 * (index / 2) + 1 = index := by omega
        rw [h1, if_neg (by omega), h3, h2]
    | succ k =>
      simp only [getHashPathFrom, List.getElem?_cons_succ]
      rw [ih k (by omega) (i + 1) (indexOfParentNode index), indexOfParentNode_eq]
      have harg : index / 2 / 2 ^ k = index / 2 ^ (k + 1) := by
        rw [Nat.div_div_eq_div_mul, ← Nat.pow_succ']
      have hlvl : i + 1 + k = i + (k + 1) := by omega
      rw [harg, hlvl]

theorem getHashPathFrom_congr (t u : MerkleTree) (fuel : Nat) :
    ∀ i index,
      (∀ k, k < fuel →
        t.hashes.getD (i + k) [] = u.hashes.getD (i + k) [] ∧
        t.zeroHashesByLevel.getD (i + k) .jsUndefined =
          u.zeroHashesByLevel.getD (i + k) .jsUndefined) →
      getHashPathFrom t i fuel index = getHashPathFrom u i fuel index := by
  induction fuel with
  | zero => intro i index _; rfl
  | succ n ih =>
    intro i index h
    have h0 := h 0 (Nat.succ_pos n)
    simp only [Nat.add_zero] at h0
    have hres : ∀ j, resolveNode t i j = resolveNode u i j := by
      intro j
      unfold resolveNode
      rw [h0.1, h0.2]
    simp only [getHashPathFrom, hres]
    rw [ih (i + 1) (indexOfParentNode index) (fun k hk => by
      have := h (k + 1) (by omega)
      simpa [Nat.add_comm, Nat.add_assoc, Nat.add_left_comm] using this)]

/-- C7: for every tree and every in-range index, `getHashPath(index)` returns
exactly `depth` pairs; pair `k` holds the digest of the even-indexed (lower)
member of the walked node's sibling pair on the left and the odd-indexed
(higher) member on the right, with the walked index halved at each level
(`index / 2^k`); and the output is fully determined by levels `0..depth-1` of
the cache and zero-hash table, so the root (the only level-`depth` node) never
contributes to the path. -/
theorem c7_hash_path_shape (t : MerkleTree) (index : Nat)
    (_h : index < 2 ^ t.depth) :
    (getHashPath t index).length = t.depth ∧
    (∀ k, k < t.depth →
      (getHashPath t index)[k]? =
        some (resolveNode t k (2 * (index / 2 ^ k / 2)),
              resolveNode t k (2 * (index / 2 ^ k / 2) + 1))) ∧
    (∀ u : MerkleTree, u.depth = t.depth →
      (∀ k, k < t.depth → u.hashes.getD k [] = t.hashes.getD k []) →
      (∀ k, k < t.depth →
        u.zeroHashesByLevel.getD k .jsUndefined = t.zeroHashesByLevel.getD k .jsUndefined) →
      getHashPath u index = getHashPath t index) := by
  refine ⟨getHashPathFrom_length t t.depth 0 index, ?_, ?_⟩
  · intro k hk
    simpa using getHashPathFrom_getElem t t.depth k hk 0 index
  · intro u hd hh hz
    unfold getHashPath
    rw [hd]
    exact getHashPathFrom_congr u t t.depth 0 index (fun k hk => by
      simpa using And.intro (hh k (by omega)) (hz k (by omega)))

/-- Witness for C7 at the fresh depth-1 tree and index 0. -/
theorem c7_hash_path_shape_witness :
    (getHashPath (fresh 1) 0).length = (fresh 1).depth ∧
    (∀ k, k < (fresh 1).depth →
      (getHashPath (fresh 1) 0)[k]? =
        some (resolveNode (fresh 1) k (2 * (0 / 2 ^ k / 2)),
              resolveNode (fresh 1) k (2 * (0 / 2 ^ k / 2) + 1))) ∧
    (∀ u : MerkleTree, u.depth = (fresh 1).depth →
      (∀ k, k < (fresh 1).depth → u.hashes.getD k [] = (fresh 1).hashes.getD k []) →
      (∀ k, k < (fresh 1).depth →
        u.zeroHashesByLevel.getD k .jsUndefined = (fresh 1).zeroHashesByLevel.getD k .jsUndefined) →
      getHashPath u 0 = getHashPath (fresh 1) 0) :=
  c7_hash_path_shape (fresh 1) 0 (by decide)

theorem updateElement_dataBlocks (t : MerkleTree) (i : Nat) (v : Bytes) :
    (updateElement t i v).dataBlocks = mapSet t.dataBlocks i v := rfl

theorem updateElement_depth (t : MerkleTree) (i : Nat) (v : Bytes) :
    (updateElement t i v).depth = t.depth := rfl

theorem updateElement_zeroTable (t : MerkleTree) (i : Nat) (v : Bytes) :
    (updateElement t i v).zeroHashesByLevel = t.zeroHashesByLevel := rfl

theorem updateElement_hashes (t : MerkleTree) (i : Nat) (v : Bytes) :
    (updateElement t i v).hashes =
      generateLevels t.zeroHashesByLevel (mapSet t.dataBlocks i v) t.depth := rfl

theorem mem_mapSet {α : Type} (m : JMap α) (k : Nat) (v : α) :
    ∀ e ∈ mapSet m k v, e ∈ m ∨ e = (k, v) := by
  intro e he
  unfold mapSet at he
  split at he
  · rcases List.mem_map.1 he with ⟨x, hx, hxe⟩
    by_cases hxk : x.1 = k
    · right
      rw [← hxe, if_pos (by simp [hxk])]
    · left
      rw [← hxe, if_neg (by simp [hxk])]
      exact hx
  · rcases List.mem_append.1 he with h | h
    · left; exact h
    · right; simpa using h

theorem foldl_mapSet_bound (B : Nat) (l : List (Nat × Bytes)) :
    ∀ acc : JMap Digest,
      (∀ e ∈ acc, e.1 < B) → (∀ a ∈ l, a.1 < B) →
      ∀ e ∈ l.foldl (fun m a => mapSet m a.1 (.hash a.2)) acc, e.1 < B := by
  induction l with
  | nil => intro acc hacc _ e he; exact hacc e he
  | cons a l ih =>
    intro acc hacc hl e he
    rw [List.foldl_cons] at he
    refine ih (mapSet acc a.1 (.hash a.2)) ?_
      (fun x hx => hl x (List.mem_cons_of_mem a hx)) e he
    intro x hx
    rcases mem_mapSet acc a.1 (.hash a.2) x hx with h | h
    · exact hacc x h
    · rw [h]; exact hl a (List.mem_cons_self a l)

theorem leafHashes_bound (db : JMap Bytes) (B : Nat)
    (h : ∀ a ∈ db, a.1 < B) : ∀ e ∈ leafHashes db, e.1 < B := by
  unfold leafHashes
  exact foldl_mapSet_bound B db [] (by simp) h

theorem levelStep_fold_bound (prev : JMap Digest) (z : Digest) (B : Nat)
    (l : List (Nat × Digest)) :
    ∀ acc : JMap Digest × List Nat,
      (∀ e ∈ acc.1, e.1 < B) → (∀ a ∈ l, a.1 < 2 * B) →
      ∀ e ∈ (l.foldl (levelStep prev z) acc).1, e.1 < B := by
  induction l with
  | nil => intro acc hacc _ e he; exact hacc e he
  | cons a l ih =>
    intro acc hacc hl e he
    rw [List.foldl_cons] at he
    refine ih (levelStep prev z acc a) ?_
      (fun x hx => hl x (List.mem_cons_of_mem a hx)) e he
    intro x hx
    unfold levelStep at hx
    simp only at hx
    split at hx
    · exact hacc x hx
    · rcases mem_mapSet acc.1 (indexOfParentNode a.1)
        (.compress a.2 ((mapGet prev (indexOfSibling a.1)).getD z)) x hx with h | h
      · exact hacc x h
      · rw [h]
        have ha := hl a (List.mem_cons_self a l)
        rw [indexOfParentNode_eq]
        omega

theorem buildLevel_bound (prev : JMap Digest) (z : Digest) (B : Nat)
    (h : ∀ e ∈ prev, e.1 < 2 * B) : ∀ e ∈ buildLevel prev z, e.1 < B := by
  unfold buildLevel
  exact levelStep_fold_bound prev z B prev ([], []) (by simp) h

theorem levelOf_bound (zl : List Digest) (db : JMap Bytes) (d : Nat)
    (hdb : ∀ e ∈ db, e.1 < 2 ^ d) :
    ∀ k, k ≤ d → ∀ e ∈ levelOf zl db k, e.1 < 2 ^ (d - k) := by
  intro k
  induction k with
  | zero => intro _ e he; simpa using leafHashes_bound db (2 ^ d) hdb e he
  | succ k ih =>
    intro hk e he
    refine buildLevel_bound (levelOf zl db k) (zl.getD k .jsUndefined) (2 ^ (d - (k + 1)))
      ?_ e he
    intro x hx
    have hb := ih (by omega) x hx
    have hpow : 2 ^ (d - k) = 2 * 2 ^ (d - (k + 1)) := by
      rw [← Nat.pow_succ']
      congr 1
      omega
    omega

theorem levelsAbove_getElem (zl : List Digest) (db : JMap Bytes) (n : Nat) :
    ∀ j k, k < n →
      (levelsAbove zl (levelOf zl db j) j n)[k]? = some (levelOf zl db (j + k + 1)) := by
  induction n with
  | zero => intro j k hk; omega
  | succ n ih =>
    intro j k hk
    cases k with
    | zero =>
      simp only [levelsAbove, List.getElem?_cons_zero]
      rfl
    | succ k =>
      simp only [levelsAbove, List.getElem?_cons_succ]
      have hstep : buildLevel (levelOf zl db j) (zl.getD j .jsUndefined) = levelOf zl db (j + 1) :=
        rfl
      rw [hstep, ih (j + 1) k (by omega)]
      have harith : j + 1 + k + 1 = j + (k + 1) + 1 := by omega
      rw [harith]

theorem generateLevels_getElem (zl : List Digest) (db : JMap Bytes) (d : Nat) :
    ∀ k, k ≤ d → (generateLevels zl db d)[k]? = some (levelOf zl db k) := by
  intro k hk
  cases k with
  | zero =>
    simp only [generateLevels, List.getElem?_cons_zero]
    rfl
  | succ k =>
    simp only [generateLevels, List.getElem?_cons_succ]
    have h0 : leafHashes db = levelOf zl db 0 := rfl
    rw [h0, levelsAbove_getElem zl db d 0 k (by omega)]
    have harith : 0 + k + 1 = k + 1 := by omega
    rw [harith]

theorem hashes_getD (zl : List Digest) (db : JMap Bytes) (d k : Nat) (hk : k ≤ d) :
    (generateLevels zl db d).getD k [] = levelOf zl db k := by
  rw [List.getD_eq_getElem?_getD, generateLevels_getElem zl db d k hk]
  rfl

theorem zeroTable_getD (d k : Nat) (hk : k ≤ d) :
    ((List.range (d + 1)).map zeroHash).getD k .jsUndefined = zeroHash k := by
  rw [List.getD_eq_getElem?_getD, List.getElem?_map, List.getElem?_range (by omega)]
  rfl

theorem applyUpdates_inv (d : Nat) (ups : List (Nat × Bytes)) :
    ∀ t : MerkleTree,
      t.depth = d →
      t.zeroHashesByLevel = (List.range (d + 1)).map zeroHash →
      t.hashes = generateLevels t.zeroHashesByLevel t.dataBlocks d →
      (applyUpdates t ups).depth = d ∧
      (applyUpdates t ups).zeroHashesByLevel = (List.range (d + 1)).map zeroHash ∧
      (applyUpdates t ups).hashes =
        generateLevels (applyUpdates t ups).zeroHashesByLevel
          (applyUpdates t ups).dataBlocks d := by
  induction ups with
  | nil => intro t h1 h2 h3; exact ⟨h1, h2, by rw [applyUpdates]; exact h3⟩
  | cons u rest ih =>
    intro t h1 h2 h3
    rw [applyUpdates]
    refine ih (updateElement t u.1 u.2) ?_ ?_ ?_
    · rw [updateElement_depth]; exact h1
    · rw [updateElement_zeroTable]; exact h2
    · rw [updateElement_hashes, updateElement_zeroTable, updateElement_dataBlocks, h1]

theorem reachable_inv (d : Nat) (ups : List (Nat × Bytes)) :
    (reachable d ups).depth = d ∧
    (reachable d ups).zeroHashesByLevel = (List.range (d + 1)).map zeroHash ∧
    (reachable d ups).hashes =
      generateLevels ((List.range (d + 1)).map zeroHash)
        (reachable d ups).dataBlocks d := by
  have h := applyUpdates_inv d ups (fresh d) rfl rfl rfl
  exact ⟨h.1, h.2.1, by rw [← h.2.1]; exact h.2.2⟩

theorem reachable_dataBlocks_bound (B : Nat) (ups : List (Nat × Bytes)) :
    ∀ t : MerkleTree,
      (∀ e ∈ t.dataBlocks, e.1 < B) → (∀ u ∈ ups, u.1 < B) →
      ∀ e ∈ (applyUpdates t ups).dataBlocks, e.1 < B := by
  induction ups with
  | nil => intro t ht _ e he; exact ht e he
  | cons u rest ih =>
    intro t ht hu e he
    rw [applyUpdates] at he
    refine ih (updateElement t u.1 u.2) ?_
      (fun x hx => hu x (List.mem_cons_of_mem u hx)) e he
    intro x hx
    rw [updateElement_dataBlocks] at hx
    rcases mem_mapSet t.dataBlocks u.1 u.2 x hx with h | h
    · exact ht x h
    · rw [h]; exact hu u (List.mem_cons_self u rest)

theorem mapHas_eq_isSome {α : Type} (m : JMap α) (j : Nat) :
    mapHas m j = (mapGet m j).isSome := by
  unfold mapHas mapGet
  cases m.find? (fun e => e.1 == j) <;> rfl

theorem mapGet_eq_none {α : Type} (m : JMap α) (j : Nat)
    (h : ∀ e ∈ m, e.1 ≠ j) : mapGet m j = none := by
  unfold mapGet
  rw [List.find?_eq_none.2 (fun x hx => by simp [h x hx])]
  rfl

theorem reachable_resolveNode (d : Nat) (ups : List (Nat × Bytes)) (k j : Nat)
    (hk : k < d) :
    resolveNode (reachable d ups) k j = cacheOrZero (reachable d ups) k j := by
  obtain ⟨hd, hz, hh⟩ := reachable_inv d ups
  unfold resolveNode cacheOrZero
  rw [mapHas_eq_isSome]
  cases hget : mapGet ((reachable d ups).hashes.getD k []) j with
  | some v => simp [hget]
  | none =>
    rw [if_neg (by simp), hz, zeroTable_getD d k (by omega)]

theorem walk_lower_bound (d k index : Nat) (hk : k < d) (hix : 2 ^ d ≤ index) :
    2 ^ (d - k) ≤ 2 * (index / 2 ^ k / 2) := by
  have hw : 2 ^ (d - k) ≤ index / 2 ^ k := by
    rw [Nat.le_div_iff_mul_le (Nat.pos_pow_of_pos k (by omega))]
    calc 2 ^ (d - k) * 2 ^ k = 2 ^ d := by
          rw [← pow_add]
          congr 1
          omega
      _ ≤ index := hix
  have hev : 2 ^ (d - k) = 2 * 2 ^ (d - k - 1) := by
    rw [← Nat.pow_succ']
    congr 1
    omega
  generalize hc : 2 ^ (d - k - 1) = c at hev
  generalize hC : 2 ^ (d - k) = C at hev hw ⊢
  omega

theorem reachable_cacheOrZero_zero (d : Nat) (ups : List (Nat × Bytes)) (k j : Nat)
    (hk : k < d) (hups : ∀ u ∈ ups, u.1 < 2 ^ d) (hj : 2 ^ (d - k) ≤ j) :
    cacheOrZero (reachable d ups) k j = zeroHash k := by
  obtain ⟨hd, hz, hh⟩ := reachable_inv d ups
  have hdb : ∀ e ∈ (reachable d ups).dataBlocks, e.1 < 2 ^ d := by
    refine reachable_dataBlocks_bound (2 ^ d) ups (fresh d) ?_ hups
    intro e he
    simp [fresh, generateTreeNodes, initTree] at he
  unfold cacheOrZero
  rw [hh, hashes_getD _ _ d k (by omega)]
  rw [mapGet_eq_none]
  intro e he
  have hb := levelOf_bound ((List.range (d + 1)).map zeroHash)
    (reachable d ups).dataBlocks d hdb k (by omega) e he
  omega

/-- C10: for every tree reachable from a fresh tree by any sequence of
`updateElement` calls and EVERY natural index argument (in range or not),
`getHashPath(index)` completes and returns exactly `depth` pairs, each node
resolved from the per-level cache when present and from the zero-hash table
entry `Z[level]` when absent; moreover, when all updates hit in-range leaves
and the queried index is out of range (`index ≥ 2^depth`), every returned
pair is the all-zero-hash pair for its level. -/
theorem c10_path_total (d : Nat) (ups : List (Nat × Bytes)) (index : Nat) :
    (getHashPath (reachable d ups) index).length = d ∧
    (∀ k, k < d →
      (getHashPath (reachable d ups) index)[k]? =
        some (cacheOrZero (reachable d ups) k (2 * (index / 2 ^ k / 2)),
              cacheOrZero (reachable d ups) k (2 * (index / 2 ^ k / 2) + 1))) ∧
    ((∀ u ∈ ups, u.1 < 2 ^ d) → 2 ^ d ≤ index →
      getHashPath (reachable d ups) index =
        (List.range d).map (fun k => (zeroHash k, zeroHash k))) := by
  obtain ⟨hd, hz, hh⟩ := reachable_inv d ups
  have hpair : ∀ k, k < d →
      (getHashPath (reachable d ups) index)[k]? =
        some (cacheOrZero (reachable d ups) k (2 * (index / 2 ^ k / 2)),
              cacheOrZero (reachable d ups) k (2 * (index / 2 ^ k / 2) + 1)) := by
    intro k hk
    rw [getHashPath, hd, getHashPathFrom_getElem _ d k hk 0 index]
    rw [Nat.zero_add, reachable_resolveNode d ups k _ hk,
      reachable_resolveNode d ups k _ hk]
  refine ⟨by rw [getHashPath, hd]; exact getHashPathFrom_length _ d 0 index,
    hpair, ?_⟩
  intro hups hix
  apply List.ext_getElem?
  intro k
  by_cases hk : k < d
  · rw [hpair k hk,
      reachable_cacheOrZero_zero d ups k _ hk hups (walk_lower_bound d k index hk hix),
      reachable_cacheOrZero_zero d ups k _ hk hups
        (by have := walk_lower_bound d k index hk hix; omega),
      List.getElem?_map, List.getElem?_range hk]
    rfl
  · rw [List.getElem?_eq_none, List.getElem?_eq_none]
    · simp
      omega
    · rw [getHashPath, hd, getHashPathFrom_length _ d 0 index]
      omega

/-- Witness for C10: depth 2, one in-range update at leaf 1, out-of-range
query index 5 — the path is the two all-zero-hash pairs. -/
theorem c10_path_total_witness :
    getHashPath (reachable 2 [(1, v1)]) 5 =
      (List.range 2).map (fun k => (zeroHash k, zeroHash k)) :=
  (c10_path_total 2 [(1, v1)] 5).2.2 (by decide) (by decide)
